import Mathlib

/-!
Verification development for the CloudFS core (satvik-A/clouds).

Each Go component relevant to the checked properties is shallowly embedded:
SQL tables become lists of row structures, the filesystem becomes an
association list from paths to file contents, machine integers become `Int`
(the Go code performs no overflowing arithmetic on the modelled paths), Go
`float64` arithmetic on the exact decimal constants of the health score is
modelled by rational numbers, and fallible operations return `Except`.
External effects (rclone calls, provider downloads) are supplied by explicit
environment records; operations that issue remote deletions record them in an
event trace so that their absence is expressible.
-/

namespace CloudFS

/-- Version states, mirroring `model.VersionState`. -/
inductive VersionState
  | incomplete
  | active
  | superseded
  | deleted
  deriving DecidableEq, Repr

/-- Placement states, mirroring `model.PlacementState`. -/
inductive PlacementState
  | pending
  | uploaded
  | verified
  | degraded
  | failed
  deriving DecidableEq, Repr

/-- Hydration states, mirroring `model.HydrationState`. -/
inductive HydrationState
  | placeholder
  | hydrating
  | hydrated
  | partial_
  deriving DecidableEq, Repr

/-- Cache entry states, mirroring `model.CacheState`. -/
inductive CacheState
  | valid
  | stale
  | pending_eviction
  deriving DecidableEq, Repr

/-- Journal entry states, mirroring `model.JournalState`. -/
inductive JournalState
  | pending
  | committed
  | synced
  | rolled_back
  deriving DecidableEq, Repr

/-- Entry kinds, mirroring `model.EntryType`. -/
inductive EntryType
  | file
  | directory
  deriving DecidableEq, Repr

/-- A row of the `entries` table (the fields the modelled operations read). -/
structure Entry where
  id : Int
  name : String
  type : EntryType
  logicalSize : Int
  deriving DecidableEq, Repr

/-- A row of the `versions` table (the fields the modelled operations read). -/
structure VersionRow where
  id : Int
  entryId : Int
  versionNum : Int
  contentHash : String
  size : Int
  state : VersionState
  deriving DecidableEq, Repr

/-- A row of the `placements` table (the fields the modelled operations read). -/
structure PlacementRow where
  id : Int
  versionId : Int
  providerId : String
  remotePath : String
  state : PlacementState
  verifiedAt : Option Nat
  deriving DecidableEq, Repr

/-- The local filesystem, as an association list from paths to file contents. -/
abbrev Fs := List (String × String)

/-- Lookup of a path in the modelled filesystem (Go `os.Stat` / `os.Open`). -/
def fsLookup : Fs → String → Option String
  | [], _ => none
  | kv :: t, p => if kv.1 = p then some kv.2 else fsLookup t p

/-- Removal of a path (Go `os.Remove`). -/
def fsErase (fs : Fs) (p : String) : Fs :=
  fs.filter (fun kv => kv.1 != p)

/-- Creation or replacement of a file (Go `os.WriteFile` / copy targets). -/
def fsInsert (fs : Fs) (p c : String) : Fs :=
  (p, c) :: fsErase fs p

namespace Health

/-- Result of reading the `MAX(p.verified_at)` column for an entry:
`none` when the SQL value is NULL (the entry was never verified);
`some none` when the stored string fails to parse as RFC 3339;
`some (some d)` when it parses and the verification lies `d` whole days in
the past, `d` being the Go truncation `int(time.Since(t).Hours() / 24)`. -/
abbrev LastVerified := Option (Option Int)

/-- Shallow embedding of `calculateHealthScore` (health manager). The Go
`float64` arithmetic on the decimal constants is modelled exactly over ℚ. -/
def calculateHealthScore (replicationCount : Int) (lastVerified : LastVerified) : ℚ :=
  if replicationCount = 0 then
    1/5
  else
    let score : ℚ := 1
    let score := if replicationCount < 2 then score - 1/5 else score
    let score :=
      match lastVerified with
      | some (some daysSinceVerified) =>
          if daysSinceVerified > 30 then score - 3/10
          else if daysSinceVerified > 7 then score - 1/10
          else score
      | some none => score
      | none => score - 2/5
    if score < 0 then 0 else score

/-- The health score exactly as the claim words it: no placements gives 0.2;
otherwise start from 1, subtract 0.2 below two placements, subtract 0.3 when
the last verification is more than 30 days ago or never happened, subtract
0.1 when it is between 7 and 30 days ago, and floor at 0. This definition
follows the words of the specification, for comparison with the embedding of
the source. -/
def claimedHealthScore (replicationCount : Int) (lastVerified : LastVerified) : ℚ :=
  if replicationCount = 0 then
    1/5
  else
    let base : ℚ := 1
    let base := if replicationCount < 2 then base - 1/5 else base
    let base :=
      match lastVerified with
      | some (some d) =>
          if d > 30 then base - 3/10
          else if 7 ≤ d ∧ d ≤ 30 then base - 1/10
          else base
      | some none => base
      | none => base - 3/10
    max 0 base

/-- The corrected description of the score: the never-verified deduction is
0.4, and the 0.1 deduction applies strictly above 7 whole days. -/
def amendedHealthScore (replicationCount : Int) (lastVerified : LastVerified) : ℚ :=
  if replicationCount = 0 then
    1/5
  else
    max 0 (1 - (if replicationCount < 2 then (1 : ℚ)/5 else 0) -
      (match lastVerified with
       | some (some d) =>
           if d > 30 then (3 : ℚ)/10
           else if d > 7 then 1/10
           else 0
       | some none => 0
       | none => 2/5))

end Health

namespace Journal

/-- A row of the `journal` table. -/
structure JournalRow where
  operationId : String
  operationType : String
  payload : String
  state : JournalState
  deriving DecidableEq, Repr

/-- The journal table. -/
abbrev Table := List JournalRow

/-- Embedding of `JournalManager.BeginOperation`: inserts a fresh pending row. -/
def beginOperation (j : Table) (opId opType payload : String) : Table :=
  j ++ [{ operationId := opId, operationType := opType, payload := payload,
          state := JournalState.pending }]

/-- Embedding of `JournalManager.CommitOperation`: the SQL update
`SET state = committed WHERE operation_id = ?` carries no condition on the
current state. -/
def commitOperation (j : Table) (opId : String) : Table :=
  j.map (fun r => if r.operationId = opId then { r with state := JournalState.committed } else r)

/-- Embedding of `JournalManager.SyncOperation`: unconditional update to
`synced` for the matching operation id. -/
def syncOperation (j : Table) (opId : String) : Table :=
  j.map (fun r => if r.operationId = opId then { r with state := JournalState.synced } else r)

/-- Embedding of `JournalManager.RollbackOperation`: unconditional update to
`rolled_back` for the matching operation id. -/
def rollbackOperation (j : Table) (opId : String) : Table :=
  j.map (fun r => if r.operationId = opId then { r with state := JournalState.rolled_back } else r)

/-- Embedding of `JournalManager.GetPendingOperations`: rows whose state is
`pending` or `committed`. -/
def getPendingOperations (j : Table) : Table :=
  j.filter (fun r => r.state = JournalState.pending ∨ r.state = JournalState.committed)

end Journal

namespace Cache

/-- A row of the `cache_entries` table. -/
structure CacheRow where
  entryId : Int
  versionId : Int
  cachePath : String
  pinned : Bool
  state : CacheState
  lastAccessed : Nat
  deriving DecidableEq, Repr

/-- The cache table. -/
abbrev CacheDb := List CacheRow

/-- The row-selection predicate of the SQL in `CacheManager.Get`:
`WHERE entry_id = ? AND version_id = ? AND state != 'pending_eviction'`. -/
def getRowPred (entryId versionId : Int) (r : CacheRow) : Bool :=
  r.entryId == entryId && r.versionId == versionId && r.state != CacheState.pending_eviction

/-- Embedding of `CacheManager.updateLastAccessed` (the Go code spawns it as a
goroutine right before `Get` returns; it is modelled as taking effect with the
return). -/
def updateLastAccessed (db : CacheDb) (now : Nat) (entryId versionId : Int) : CacheDb :=
  db.map (fun r =>
    if r.entryId == entryId && r.versionId == versionId then { r with lastAccessed := now } else r)

/-- Embedding of `CacheManager.Get`. A missing row and a missing file both
return the empty path with a nil error; the paths on which the Go code can
return a non-nil error are injected database failures, which the model does
not produce. -/
def get (db : CacheDb) (fs : Fs) (now : Nat) (entryId versionId : Int) :
    Except String (Option String × CacheDb) :=
  match db.find? (getRowPred entryId versionId) with
  | none => Except.ok (none, db)
  | some r =>
    if (fsLookup fs r.cachePath).isNone then
      Except.ok (none, db)
    else
      Except.ok (some r.cachePath, updateLastAccessed db now entryId versionId)

/-- Directory of a cache path (Go `filepath.Dir`), for slash-separated paths:
everything before the final separator. -/
def dirname (p : String) : String :=
  String.intercalate "/" ((p.splitOn "/").dropLast)

/-- Does `path` live inside the tree rooted at `dir` (Go `os.RemoveAll dir`)? -/
def pathInDir (dir path : String) : Bool :=
  path == dir || (dir ++ "/").isPrefixOf path

/-- Removal of a whole directory tree (Go `os.RemoveAll`). -/
def fsRemoveAll (fs : Fs) (dir : String) : Fs :=
  fs.filter (fun kv => !pathInDir dir kv.1)

/-- Embedding of `CacheManager.Evict`. The pinned check reads the first row
for the key; a missing row returns success ("already not in cache"); a pinned
row fails; otherwise the version directory is removed and every row for the
key is deleted. -/
def evict (db : CacheDb) (fs : Fs) (entryId versionId : Int) (confirmed : Bool) :
    Except String (CacheDb × Fs) :=
  if !confirmed then
    Except.error "eviction requires explicit user confirmation"
  else
    match db.find? (fun r => r.entryId == entryId && r.versionId == versionId) with
    | none => Except.ok (db, fs)
    | some r =>
      if r.pinned then
        Except.error "cannot evict pinned entry - unpin first"
      else
        let fs1 := if r.cachePath != "" then fsRemoveAll fs (dirname r.cachePath) else fs
        let db1 := db.filter (fun q => !(q.entryId == entryId && q.versionId == versionId))
        Except.ok (db1, fs1)

end Cache

namespace Placeholder

/-- The suffix identifying CloudFS placeholders (`PlaceholderSuffix`). -/
def placeholderSuffix : String := ".cloudfs"

/-- Embedding of `PlaceholderManager.GetPlaceholderPath`. -/
def getPlaceholderPath (rootDir : String) (entry : Entry) (parentPath : String) : String :=
  (if parentPath = "" then rootDir else parentPath) ++ "/" ++ entry.name ++ placeholderSuffix

/-- Embedding of `PlaceholderManager.GetRealPath`. -/
def getRealPath (rootDir : String) (entry : Entry) (parentPath : String) : String :=
  (if parentPath = "" then rootDir else parentPath) ++ "/" ++ entry.name

/-- Embedding of `PlaceholderManager.IsPlaceholder`: purely a suffix check. -/
def isPlaceholder (path : String) : Bool :=
  placeholderSuffix.data.isSuffixOf path.data

/-- Injected outcomes of the two filesystem effects inside `AtomicSwap` that
can fail in Go for external reasons (`copyFileAtomic` and `os.Rename`). -/
structure SwapEnv where
  copyFails : Bool
  renameFails : Bool
  deriving DecidableEq, Repr

/-- Embedding of `PlaceholderManager.AtomicSwap`. `hashFn` stands for the
SHA-256 computation of `calculateFileHash` over the file contents; every
theorem below holds for an arbitrary hash function. Steps, as in the source:
stat the cache file, recompute and compare the fingerprint, compare the size,
copy into a temp sibling of the target, atomically rename onto the real path,
and only then remove the placeholder. On a copy or rename failure the temp
file is removed and the target is untouched. -/
def atomicSwap (rootDir : String) (hashFn : String → String) (env : SwapEnv)
    (fs : Fs) (entry : Entry) (cachePath expectedHash parentPath : String) :
    Except String Unit × Fs :=
  let placeholderPath := getPlaceholderPath rootDir entry parentPath
  let realPath := getRealPath rootDir entry parentPath
  match fsLookup fs cachePath with
  | none => (Except.error "cache file not found", fs)
  | some contents =>
    if expectedHash ≠ "" ∧ hashFn contents ≠ expectedHash then
      (Except.error ("hash mismatch: expected " ++ expectedHash ++ ", got " ++ hashFn contents), fs)
    else if (contents.length : Int) ≠ entry.logicalSize then
      (Except.error ("size mismatch: expected " ++ toString entry.logicalSize ++
        ", got " ++ toString contents.length), fs)
    else
      let tempPath := realPath ++ ".cloudfs.tmp"
      if env.copyFails then
        (Except.error "failed to prepare file", fsErase fs tempPath)
      else
        let fs1 := fsInsert fs tempPath contents
        if env.renameFails then
          (Except.error "failed to swap file", fsErase fs1 tempPath)
        else
          let fs2 := fsInsert (fsErase fs1 tempPath) realPath contents
          let fs3 := if placeholderPath ≠ realPath then fsErase fs2 placeholderPath else fs2
          (Except.ok (), fs3)

/-- Convenience discriminator for `Except` results. -/
def isError {ε α : Type} : Except ε α → Bool
  | Except.error _ => true
  | Except.ok _ => false

end Placeholder

namespace Planner

/-- The `ProviderInfo` record of the placement planner; `freeSpace` is filled
by the live rclone query at the start of `Plan`. -/
structure ProviderInfo where
  id : Int
  name : String
  ptype : String
  status : String
  priority : Int
  softLimit : Option Int
  hardLimit : Option Int
  requiresEncryption : Bool
  remote : String
  freeSpace : Int
  deriving DecidableEq, Repr

/-- A selected placement in a `PlacementPlan`. -/
structure PlannedPlacement where
  providerId : String
  providerName : String
  remotePath : String
  priority : Int
  reason : String
  deriving DecidableEq, Repr

/-- A rejected provider in a `PlacementPlan`. -/
structure RejectedProvider where
  providerId : String
  providerName : String
  reason : String
  deriving DecidableEq, Repr

/-- The result of `PlacementPlanner.Plan`. -/
structure PlacementPlan where
  placements : List PlannedPlacement
  rejectedProviders : List RejectedProvider
  rejected : Bool
  reason : String
  fileSize : Int
  fileName : String
  deriving DecidableEq, Repr

/-- Embedding of `calculateReason`. -/
def calculateReason (p : ProviderInfo) (fileSize : Int) : String :=
  match p.softLimit with
  | some sl =>
    if p.freeSpace - fileSize > sl then "under_soft_limit"
    else if p.freeSpace > 1024*1024*1024*10 then "most_free_space"
    else if p.priority = 1 then "primary_provider"
    else "available"
  | none =>
    if p.freeSpace > 1024*1024*1024*10 then "most_free_space"
    else if p.priority = 1 then "primary_provider"
    else "available"

/-- The rejection reason string for the hard-limit branch of `Plan`. -/
def hardLimitReason (fileSize freeSpace : Int) : String :=
  "hard_limit_exceeded (need " ++ toString fileSize ++ ", have " ++ toString freeSpace ++ ")"

/-- The selected-placement record built by `Plan` for a passing provider. -/
def mkPlacement (p : ProviderInfo) (fileName : String) (fileSize : Int) : PlannedPlacement :=
  { providerId := toString p.id, providerName := p.name, remotePath := "/" ++ fileName,
    priority := p.priority, reason := calculateReason p fileSize }

/-- Does a provider pass both hard constraints of the evaluation loop of
`Plan`? Note that the hard-limit constraint only applies when a hard byte
limit is configured for the provider. -/
def passes (fileSize : Int) (encrypted : Bool) (p : ProviderInfo) : Bool :=
  !(p.requiresEncryption && !encrypted) && !(p.hardLimit.isSome && p.freeSpace < fileSize)

/-- The rejection record `Plan` produces for a provider failing a hard
constraint (meaningful only when `passes` is false). -/
def rejectionOf (fileSize : Int) (encrypted : Bool) (p : ProviderInfo) : RejectedProvider :=
  if p.requiresEncryption && !encrypted then
    { providerId := toString p.id, providerName := p.name, reason := "encryption_incompatible" }
  else
    { providerId := toString p.id, providerName := p.name,
      reason := hardLimitReason fileSize p.freeSpace }

/-- The per-provider evaluation loop of `Plan`: encryption compatibility and
the hard limit are the two disqualifying constraints, checked in that order.
Returns the selected and the rejected lists in input order. -/
def evalProviders (fileName : String) (fileSize : Int) (encrypted : Bool) :
    List ProviderInfo → List PlannedPlacement × List RejectedProvider
  | [] => ([], [])
  | p :: ps =>
    let rest := evalProviders fileName fileSize encrypted ps
    if p.requiresEncryption && !encrypted then
      (rest.1, { providerId := toString p.id, providerName := p.name,
                 reason := "encryption_incompatible" } :: rest.2)
    else if p.hardLimit.isSome && p.freeSpace < fileSize then
      (rest.1, { providerId := toString p.id, providerName := p.name,
                 reason := hardLimitReason fileSize p.freeSpace } :: rest.2)
    else
      (mkPlacement p fileName fileSize :: rest.1, rest.2)

/-- One pass of the inner loop of `sortPlacements`: the accumulator holds the
value currently sitting at slot `i`; whenever a later element has a strictly
smaller priority the two are swapped, leaving the previous accumulator at that
later position. Returns the final slot value and the remaining suffix. -/
def selectMin (cur : PlannedPlacement) :
    List PlannedPlacement → PlannedPlacement × List PlannedPlacement
  | [] => (cur, [])
  | x :: xs =>
    if x.priority < cur.priority then
      let r := selectMin x xs
      (r.1, cur :: r.2)
    else
      let r := selectMin cur xs
      (r.1, x :: r.2)

/-- The outer loop of `sortPlacements`, with the list length as fuel (each
inner pass preserves the length of the remaining suffix, so the fuel always
suffices; the fuel-exhausted branch is unreachable). -/
def sortGo : Nat → List PlannedPlacement → List PlannedPlacement
  | _, [] => []
  | 0, l => l
  | n + 1, x :: xs =>
    let r := selectMin x xs
    r.1 :: sortGo n r.2

/-- Embedding of `sortPlacements` (in-place double loop over the slice,
ascending by priority). -/
def sortPlacements (l : List PlannedPlacement) : List PlannedPlacement :=
  sortGo l.length l

/-- Embedding of `PlacementPlanner.Plan`. `getLiveFreeSpace` stands for the
rclone `about` query of `getLiveFreeSpace`; `none` models a query error, which
the source maps to a free space of 0 ("treat as unavailable"). The cached
usage column of the providers table is not an input: the source never reads
it in `Plan`. -/
def plan (getLiveFreeSpace : String → Option Int) (providers0 : List ProviderInfo)
    (fileName : String) (fileSize : Int) (encrypted : Bool) : PlacementPlan :=
  if providers0.isEmpty then
    { placements := [], rejectedProviders := [], rejected := true,
      reason := "no active providers available", fileSize := fileSize, fileName := fileName }
  else
    let providers := providers0.map (fun p =>
      { p with freeSpace := (getLiveFreeSpace p.remote).getD 0 })
    let r := evalProviders fileName fileSize encrypted providers
    let placements := sortPlacements r.1
    if placements.isEmpty then
      { placements := placements, rejectedProviders := r.2, rejected := true,
        reason := "no suitable providers available", fileSize := fileSize, fileName := fileName }
    else
      { placements := placements, rejectedProviders := r.2, rejected := false,
        reason := "", fileSize := fileSize, fileName := fileName }

end Planner

namespace DeleteCoord

/-- Delete origins (`DeleteSource`). -/
inductive DeleteSource
  | trashPurge
  | destroy
  | providerRemove
  deriving DecidableEq, Repr

/-- A placement to delete (`PlacementRef`). -/
structure PlacementRef where
  placementId : Int
  versionId : Int
  providerId : String
  remotePath : String
  entryName : String
  size : Int
  deriving DecidableEq, Repr

/-- A deletion request (`DeleteRequest`). -/
structure DeleteRequest where
  placements : List PlacementRef
  dryRun : Bool
  source : DeleteSource
  deriving DecidableEq, Repr

/-- The result of `Execute` (`DeleteResult`). -/
structure DeleteResult where
  deleted : Nat
  failed : Nat
  errors : List String
  deriving DecidableEq, Repr

/-- Outcome of the two rclone invocations for one remote path: whether
`rclone deletefile` exits cleanly, and whether the verification listing
(`rclone ls`) still prints the object afterwards. -/
structure RemoteOutcome where
  deleteOk : Bool
  stillListed : Bool
  deriving DecidableEq, Repr

/-- The remote world, keyed by remote path. -/
abbrev RemoteEnv := String → RemoteOutcome

/-- Embedding of `downgradePlacement`: mark the placement row `degraded`. -/
def downgradePlacement (db : List PlacementRow) (placementId : Int) : List PlacementRow :=
  db.map (fun r => if r.id == placementId then { r with state := PlacementState.degraded } else r)

/-- Does the remote delete of this placement succeed end to end (delete call
ok and the object verified gone)? -/
def deleteSucceeds (env : RemoteEnv) (p : PlacementRef) : Bool :=
  (env p.remotePath).deleteOk && !(env p.remotePath).stillListed

/-- The per-placement body of the `Execute` loop. -/
def executeStep (env : RemoteEnv) (acc : DeleteResult × List PlacementRow) (p : PlacementRef) :
    DeleteResult × List PlacementRow :=
  let res := acc.1
  let db := acc.2
  if !(env p.remotePath).deleteOk then
    ({ res with failed := res.failed + 1,
                errors := res.errors ++ ["failed to delete " ++ p.remotePath ++ " from " ++ p.providerId] },
     downgradePlacement db p.placementId)
  else if (env p.remotePath).stillListed then
    ({ res with failed := res.failed + 1,
                errors := res.errors ++ ["verification failed: " ++ p.remotePath ++ " still exists on " ++ p.providerId] },
     downgradePlacement db p.placementId)
  else
    ({ res with deleted := res.deleted + 1 },
     db.filter (fun r => !(r.id == p.placementId)))

/-- Embedding of `DeleteCoordinator.Execute`. Without confirmation it refuses
before any side effect; a dry run reports every placement as deleted without
touching anything; otherwise every placement is processed in order and a
failure never stops the loop. -/
def execute (env : RemoteEnv) (db : List PlacementRow) (req : DeleteRequest) (confirmed : Bool) :
    Except String (DeleteResult × List PlacementRow) :=
  if !confirmed then
    Except.error "deletion requires explicit confirmation"
  else if req.dryRun then
    Except.ok ({ deleted := req.placements.length, failed := 0, errors := [] }, db)
  else
    Except.ok (req.placements.foldl (executeStep env)
      ({ deleted := 0, failed := 0, errors := [] }, db))

/-- The fate of one placement row after a full non-dry-run `Execute`, used to
state the batch postcondition: untouched when no requested placement carries
its id, removed when that placement succeeded remotely, downgraded to
`degraded` when it failed. -/
def rowFate (env : RemoteEnv) (ps : List PlacementRef) (r : PlacementRow) : Option PlacementRow :=
  match ps.find? (fun p => p.placementId == r.id) with
  | none => some r
  | some p =>
    if deleteSucceeds env p then none
    else some { r with state := PlacementState.degraded }

/-- The error message `Execute` records for one placement, if any: the remote
delete failed, or the verification listing still shows the object. -/
def failureMessage (env : RemoteEnv) (p : PlacementRef) : Option String :=
  if !(env p.remotePath).deleteOk then
    some ("failed to delete " ++ p.remotePath ++ " from " ++ p.providerId)
  else if (env p.remotePath).stillListed then
    some ("verification failed: " ++ p.remotePath ++ " still exists on " ++ p.providerId)
  else none

end DeleteCoord

namespace Hydration

/-- A row of the `hydration_state` table. -/
structure HydrationRow where
  entryId : Int
  currentState : HydrationState
  hydratedVersionId : Option Int
  hydrationProgress : Int
  lastHydrated : Option Nat
  deriving DecidableEq, Repr

/-- The full state read and written by the hydration controller. -/
structure St where
  entries : List Entry
  versions : List VersionRow
  placements : List PlacementRow
  hydrationRows : List HydrationRow
  cacheRows : Cache.CacheDb
  journal : Journal.Table
  fs : Fs
  nextOp : Nat
  deriving DecidableEq, Repr

/-- Externally visible actions of a hydration run. -/
inductive Event
  | journalBegin (opType : String)
  | journalCommit
  | journalSync
  | journalRollback (reason : String)
  | download (providerId remotePath : String)
  | cachePut (entryId versionId : Int)
  | swap (entryId : Int)
  | pin (entryId : Int)
  deriving DecidableEq, Repr

/-- What a provider download returns (`provider.DownloadResult`): the bytes
written to the temp path, the reported fingerprint, and the size. -/
structure DownloadResult where
  contents : String
  contentHash : String
  size : Int
  deriving DecidableEq, Repr

/-- The environment of a hydration run: the provider registry, the provider
download (keyed by provider id and remote path), the injected filesystem
outcomes of the atomic swap, the hash function, the projection root, and the
clock. -/
structure Env where
  registryHas : String → Bool
  download : String → String → Except String DownloadResult
  swapEnv : Placeholder.SwapEnv
  hashFn : String → String
  rootDir : String
  now : Nat

/-- The result record of `Hydrate` (`HydrationResult`; the duration field is
not modelled). -/
structure HydrationResult where
  entryId : Int
  versionId : Int
  success : Bool
  bytesLoaded : Int
  deriving DecidableEq, Repr

/-- Embedding of `IndexManager.GetEntry`: first row with the id. -/
def getEntry (entries : List Entry) (id : Int) : Option Entry :=
  entries.find? (fun e => e.id == id)

/-- Embedding of `IndexManager.GetActiveVersion`: among the active versions of
the entry, the one with the greatest version number (`ORDER BY version_num
DESC LIMIT 1`). -/
def getActiveVersion (versions : List VersionRow) (entryId : Int) : Option VersionRow :=
  (versions.filter (fun v => v.entryId == entryId && v.state == VersionState.active)).foldl
    (fun best v =>
      match best with
      | none => some v
      | some b => if v.versionNum > b.versionNum then some v else some b)
    none

/-- Embedding of `getHydrationState`: a missing row defaults to the
`placeholder` state. -/
def getHydrationState (rows : List HydrationRow) (entryId : Int) : HydrationRow :=
  match rows.find? (fun h => h.entryId == entryId) with
  | some h => h
  | none =>
    { entryId := entryId, currentState := HydrationState.placeholder,
      hydratedVersionId := none, hydrationProgress := 0, lastHydrated := none }

/-- Embedding of `setHydrationState`: an upsert keyed on the entry id. -/
def setHydrationState (rows : List HydrationRow) (entryId : Int) (state : HydrationState)
    (versionId : Option Int) (progress : Int) (now : Nat) : List HydrationRow :=
  if rows.any (fun h => h.entryId == entryId) then
    rows.map (fun h =>
      if h.entryId == entryId then
        { h with currentState := state, hydratedVersionId := versionId,
                 hydrationProgress := progress, lastHydrated := some now }
      else h)
  else
    rows ++ [{ entryId := entryId, currentState := state, hydratedVersionId := versionId,
               hydrationProgress := progress, lastHydrated := some now }]

/-- Embedding of the `getPlacement` helper: among placements of the version in
state `uploaded` or `verified`, the most recently verified one (`ORDER BY
verified_at DESC LIMIT 1`; a NULL timestamp sorts last). -/
def getPlacement (placements : List PlacementRow) (versionId : Int) : Option PlacementRow :=
  (placements.filter (fun p =>
      p.versionId == versionId &&
      (p.state == PlacementState.uploaded || p.state == PlacementState.verified))).foldl
    (fun best p =>
      match best with
      | none => some p
      | some b =>
        match p.verifiedAt, b.verifiedAt with
        | some tp, some tb => if tp > tb then some p else some b
        | some _, none => some p
        | none, _ => some b)
    none

/-- The cache path of `CacheManager.Put`:
`cacheDir/entries/entryId/versionId/data`. -/
def cachePathFor (cacheDir : String) (entryId versionId : Int) : String :=
  cacheDir ++ "/entries/" ++ toString entryId ++ "/" ++ toString versionId ++ "/data"

/-- Embedding of `CacheManager.Put`: move the written temp file to the cache
path and upsert the row to state `valid` (the pinned flag of an existing row
is untouched by the SQL upsert). Returns the cache path. -/
def cachePut (rows : Cache.CacheDb) (fs : Fs) (cacheDir : String) (now : Nat)
    (entryId versionId : Int) (dataPath : String) :
    Except String (String × Cache.CacheDb × Fs) :=
  match fsLookup fs dataPath with
  | none => Except.error "failed to move file to cache"
  | some contents =>
    let cachePath := cachePathFor cacheDir entryId versionId
    let fs1 := fsInsert (fsErase fs dataPath) cachePath contents
    let rows1 :=
      if rows.any (fun r => r.entryId == entryId && r.versionId == versionId) then
        rows.map (fun r =>
          if r.entryId == entryId && r.versionId == versionId then
            { r with cachePath := cachePath, state := CacheState.valid, lastAccessed := now }
          else r)
      else
        rows ++ [{ entryId := entryId, versionId := versionId, cachePath := cachePath,
                   pinned := false, state := CacheState.valid, lastAccessed := now }]
    Except.ok (cachePath, rows1, fs1)

/-- Embedding of `CacheManager.Pin`: set the pinned flag on every row of the
entry. -/
def cachePin (rows : Cache.CacheDb) (entryId : Int) : Cache.CacheDb :=
  rows.map (fun r => if r.entryId == entryId then { r with pinned := true } else r)

/-- The fresh operation id produced by `uuid.New()` in `BeginOperation`,
modelled as a counter-indexed string. -/
def freshOpId (n : Nat) : String := "op-" ++ toString n

/-- The private temp download path of `Hydrate` (step 8). -/
def tempPathFor (entryId versionId : Int) : String :=
  "temp/" ++ toString entryId ++ "_" ++ toString versionId

/-- Embedding of `HydrationController.Hydrate`. Mirrors the fourteen steps of
the source; the short-circuit of step 3 fires whenever the current hydration
state is `hydrated`, without comparing the recorded hydrated version id with
the active version id. -/
def hydrate (env : Env) (st : St) (entryId : Int) (pinOpt : Bool) :
    Except String HydrationResult × St × List Event :=
  match getEntry st.entries entryId with
  | none => (Except.error "entry not found", st, [])
  | some entry =>
    if entry.type = EntryType.directory then
      (Except.error "cannot hydrate directory", st, [])
    else
      match getActiveVersion st.versions entryId with
      | none => (Except.error "no active version for entry", st, [])
      | some version =>
        if (getHydrationState st.hydrationRows entryId).currentState = HydrationState.hydrated then
          (Except.ok { entryId := entryId, versionId := version.id, success := true,
                       bytesLoaded := 0 }, st, [])
        else
          match getPlacement st.placements version.id with
          | none => (Except.error "no placement found for version", st, [])
          | some placement =>
            if !env.registryHas placement.providerId then
              (Except.error "provider not found", st, [])
            else
              let opId := freshOpId st.nextOp
              let st := { st with
                journal := Journal.beginOperation st.journal opId "hydrate" "", nextOp := st.nextOp + 1 }
              let evs := [Event.journalBegin "hydrate"]
              let hr0 := setHydrationState st.hydrationRows entryId HydrationState.hydrating none 0 env.now
              let st := { st with hydrationRows := hr0 }
              let tempPath := tempPathFor entryId version.id
              match env.download placement.providerId placement.remotePath with
              | Except.error e =>
                let st := { st with
                  hydrationRows :=
                    setHydrationState st.hydrationRows entryId HydrationState.placeholder none 0 env.now,
                  journal := Journal.rollbackOperation st.journal opId,
                  fs := fsErase st.fs tempPath }
                (Except.error ("download failed: " ++ e), st,
                 evs ++ [Event.download placement.providerId placement.remotePath,
                         Event.journalRollback e])
              | Except.ok dr =>
                let st := { st with fs := fsInsert st.fs tempPath dr.contents }
                let evs := evs ++ [Event.download placement.providerId placement.remotePath]
                if dr.contentHash ≠ "" ∧ version.contentHash ≠ "" ∧
                    dr.contentHash ≠ version.contentHash then
                  let st := { st with
                    hydrationRows :=
                      setHydrationState st.hydrationRows entryId HydrationState.placeholder none 0 env.now,
                    journal := Journal.rollbackOperation st.journal opId,
                    fs := fsErase st.fs tempPath }
                  (Except.error "hash verification failed", st,
                   evs ++ [Event.journalRollback "hash mismatch"])
                else
                  match cachePut st.cacheRows st.fs "cache" env.now entryId version.id tempPath with
                  | Except.error e =>
                    let st := { st with
                      hydrationRows :=
                        setHydrationState st.hydrationRows entryId HydrationState.placeholder none 0 env.now,
                      journal := Journal.rollbackOperation st.journal opId,
                      fs := fsErase st.fs tempPath }
                    (Except.error ("failed to cache file: " ++ e), st,
                     evs ++ [Event.journalRollback e])
                  | Except.ok (cachePath, cacheRows1, fs1) =>
                    let st := { st with cacheRows := cacheRows1, fs := fs1 }
                    let evs := evs ++ [Event.cachePut entryId version.id]
                    let swapped := Placeholder.atomicSwap env.rootDir env.hashFn env.swapEnv
                      st.fs entry cachePath version.contentHash ""
                    match swapped.1 with
                    | Except.error e =>
                      let st := { st with
                        fs := swapped.2,
                        hydrationRows :=
                          setHydrationState st.hydrationRows entryId HydrationState.placeholder none 0 env.now,
                        journal := Journal.rollbackOperation st.journal opId }
                      (Except.error ("failed to swap placeholder: " ++ e), st,
                       evs ++ [Event.journalRollback e])
                    | Except.ok _ =>
                      let st := { st with
                        fs := swapped.2,
                        hydrationRows :=
                          setHydrationState st.hydrationRows entryId HydrationState.hydrated
                            (some version.id) 100 env.now }
                      let evs := evs ++ [Event.swap entryId]
                      let st := if pinOpt then { st with cacheRows := cachePin st.cacheRows entryId } else st
                      let evs := if pinOpt then evs ++ [Event.pin entryId] else evs
                      let j2 := Journal.syncOperation (Journal.commitOperation st.journal opId) opId
                      let st := { st with journal := j2 }
                      (Except.ok { entryId := entryId, versionId := version.id, success := true,
                                   bytesLoaded := dr.size }, st,
                       evs ++ [Event.journalCommit, Event.journalSync])

end Hydration

namespace Trash

/-- A row of the `trash` table. Time is counted in whole days, so the
`AddDate(0, 0, autoPurgeDays)` of the source is an addition. -/
structure TrashRow where
  id : Int
  originalEntryId : Int
  originalPath : String
  versionId : Option Int
  autoPurgeAfter : Option Nat
  deriving DecidableEq, Repr

/-- The state read and written by the trash manager. The `placements` table
and the `remoteDeletes` audit list are carried so that their untouchedness by
the purge operations is expressible; only the delete coordinator may append
to `remoteDeletes`. -/
structure St where
  entries : List Entry
  versions : List VersionRow
  placements : List PlacementRow
  trash : List TrashRow
  journal : Journal.Table
  nextTrashId : Int
  nextOp : Nat
  deriving DecidableEq, Repr

/-- Externally visible actions of a trash operation. The `delegateRemoteDelete`
constructor marks a delegation of remote removal to the delete coordinator;
it can only ever be emitted by an operation that performs one. -/
inductive Event
  | journalBegin (opType : String)
  | journalCommit
  | journalSync
  | journalRollback (reason : String)
  | delegateRemoteDelete (entryId : Int)
  deriving DecidableEq, Repr

/-- Embedding of `TrashManager.MoveToTrash`: journal begin, read the active
version id (a missing one is tolerated as NULL), insert the trash row, mark
every version of the entry `deleted`, then commit and sync. -/
def moveToTrash (st : St) (entryId : Int) (originalPath : String) (autoPurgeDays : Int)
    (now : Nat) : Except String Unit × St × List Event :=
  let opId := Hydration.freshOpId st.nextOp
  let j0 := Journal.beginOperation st.journal opId "trash_move" ""
  let versionId :=
    (st.versions.find? (fun v => v.entryId == entryId && v.state == VersionState.active)).map
      (fun v => v.id)
  let autoPurgeAfter := if autoPurgeDays > 0 then some (now + autoPurgeDays.toNat) else none
  let trash1 := st.trash ++ [⟨st.nextTrashId, entryId, originalPath, versionId, autoPurgeAfter⟩]
  let versions1 := st.versions.map (fun v =>
    if v.entryId == entryId then { v with state := VersionState.deleted } else v)
  let j1 := Journal.syncOperation (Journal.commitOperation j0 opId) opId
  let st1 := { st with
    journal := j1, trash := trash1, versions := versions1,
    nextTrashId := st.nextTrashId + 1, nextOp := st.nextOp + 1 }
  (Except.ok (), st1,
   [Event.journalBegin "trash_move", Event.journalCommit, Event.journalSync])

/-- Embedding of `TrashManager.Restore`: look the trash row up, journal begin,
flip the referenced version back to `active` (when the pointer is non-NULL),
delete the trash row, commit and sync. -/
def restore (st : St) (trashId : Int) : Except String Unit × St × List Event :=
  match st.trash.find? (fun t => t.id == trashId) with
  | none => (Except.error "trash entry not found", st, [])
  | some row =>
    let opId := Hydration.freshOpId st.nextOp
    let j0 := Journal.beginOperation st.journal opId "trash_restore" ""
    let versions1 :=
      match row.versionId with
      | some vid => st.versions.map (fun v =>
          if v.id == vid then { v with state := VersionState.active } else v)
      | none => st.versions
    let trash1 := st.trash.filter (fun t => !(t.id == trashId))
    let j1 := Journal.syncOperation (Journal.commitOperation j0 opId) opId
    let st1 := { st with
      journal := j1, trash := trash1, versions := versions1, nextOp := st.nextOp + 1 }
    (Except.ok (), st1,
     [Event.journalBegin "trash_restore", Event.journalCommit, Event.journalSync])

/-- Embedding of `TrashManager.Purge`: refuse unconfirmed, look the trash row
up, journal begin, delete the trash row, delete the entry row, commit and
sync. As in the source, no delegation to the delete coordinator and no
provider delete happens anywhere in the operation (the source carries only a
comment that provider deletion "would happen here"). -/
def purge (st : St) (trashId : Int) (confirmed : Bool) : Except String Unit × St × List Event :=
  if !confirmed then
    (Except.error "purge requires explicit user confirmation", st, [])
  else
    match st.trash.find? (fun t => t.id == trashId) with
    | none => (Except.error "trash entry not found", st, [])
    | some row =>
      let opId := Hydration.freshOpId st.nextOp
      let j0 := Journal.beginOperation st.journal opId "trash_purge" ""
      let trash1 := st.trash.filter (fun t => !(t.id == trashId))
      let entries1 := st.entries.filter (fun e => !(e.id == row.originalEntryId))
      let j1 := Journal.syncOperation (Journal.commitOperation j0 opId) opId
      let st1 := { st with
        journal := j1, trash := trash1, entries := entries1, nextOp := st.nextOp + 1 }
      (Except.ok (), st1,
       [Event.journalBegin "trash_purge", Event.journalCommit, Event.journalSync])

/-- Embedding of `TrashManager.PurgeAll`: refuse unconfirmed, journal begin,
delete every entry row referenced from trash, empty the trash table, commit
and sync, returning the number of purged trash rows. No delegation to the
delete coordinator happens inside the operation. -/
def purgeAll (st : St) (confirmed : Bool) : Except String Nat × St × List Event :=
  if !confirmed then
    (Except.error "purge requires explicit user confirmation", st, [])
  else
    let opId := Hydration.freshOpId st.nextOp
    let j0 := Journal.beginOperation st.journal opId "trash_purge_all" ""
    let entries1 := st.entries.filter (fun e =>
      !(st.trash.any (fun t => t.originalEntryId == e.id)))
    let count := st.trash.length
    let j1 := Journal.syncOperation (Journal.commitOperation j0 opId) opId
    let st1 := { st with
      journal := j1, trash := [], entries := entries1, nextOp := st.nextOp + 1 }
    (Except.ok count, st1,
     [Event.journalBegin "trash_purge_all", Event.journalCommit, Event.journalSync])

/-- Is a trash row past its auto-purge date? -/
def expired (now : Nat) (t : TrashRow) : Bool :=
  match t.autoPurgeAfter with
  | some d => d ≤ now
  | none => false

/-- Embedding of `TrashManager.PurgeExpired`: refuse unconfirmed, journal
begin, delete every expired trash row, commit and sync, returning the number
removed. Entry rows, placements and the remote are untouched. -/
def purgeExpired (st : St) (confirmed : Bool) (now : Nat) : Except String Nat × St × List Event :=
  if !confirmed then
    (Except.error "purge requires explicit user confirmation", st, [])
  else
    let opId := Hydration.freshOpId st.nextOp
    let j0 := Journal.beginOperation st.journal opId "trash_purge_expired" "\x7b\x7d"
    let count := (st.trash.filter (expired now)).length
    let trash1 := st.trash.filter (fun t => !expired now t)
    let j1 := Journal.syncOperation (Journal.commitOperation j0 opId) opId
    (Except.ok count, { st with journal := j1, trash := trash1, nextOp := st.nextOp + 1 },
     [Event.journalBegin "trash_purge_expired", Event.journalCommit, Event.journalSync])

/-- The ids of the versions of entry `e` that are in state `active` — the
active-version set of the entry. -/
def activeVersionIds (versions : List VersionRow) (e : Int) : List Int :=
  (versions.filter (fun v => v.entryId == e && v.state == VersionState.active)).map (fun v => v.id)

end Trash

/-!
Theorems. Each claim of the specification check is settled by one theorem,
preceded where needed by a counterexample at a concrete input and followed
where needed by a witness discharging the hypotheses at a concrete input.
-/

/-- C9, counterexample. For an entry with one placement that was never
verified, the source computes 1 − 0.2 − 0.4 = 0.4, while the claimed formula
(never verified ⇒ −0.3) yields 0.5; for one placement verified exactly 7
whole days ago the source subtracts nothing (the 0.1 deduction needs strictly
more than 7 days), while the claimed band 7–30 days yields 0.7. -/
theorem c9_health_score_counterexample :
    Health.calculateHealthScore 1 none = 2/5 ∧
    Health.claimedHealthScore 1 none = 1/2 ∧
    Health.calculateHealthScore 1 none ≠ Health.claimedHealthScore 1 none ∧
    Health.calculateHealthScore 1 (some (some 7)) = 4/5 ∧
    Health.claimedHealthScore 1 (some (some 7)) = 7/10 := by
  refine ⟨?_, ?_, ?_, ?_, ?_⟩ <;>
    norm_num [Health.calculateHealthScore, Health.claimedHealthScore]

/-- C9, amended. The health score equals the amended description — zero
placements give 0.2; otherwise 1 minus 0.2 for fewer than two placements,
minus 0.4 when never verified, minus 0.3 when verified more than 30 whole
days ago, minus 0.1 when verified more than 7 and at most 30 whole days ago,
floored at 0 — and it always lies in [0, 1]. -/
theorem c9_health_score_amended (rc : Int) (lv : Health.LastVerified) :
    Health.calculateHealthScore rc lv = Health.amendedHealthScore rc lv ∧
    0 ≤ Health.calculateHealthScore rc lv ∧ Health.calculateHealthScore rc lv ≤ 1 := by
  rcases lv with _ | (_ | d) <;>
    simp only [Health.calculateHealthScore, Health.amendedHealthScore] <;>
    split_ifs <;> norm_num at *

/-- C5, counterexample. `CommitOperation` moves a `synced` journal row back to
`committed`, and `SyncOperation` moves a `rolled_back` row to `synced`: the
states `synced` and `rolled_back` are not terminal under the three
operations. -/
theorem c5_journal_counterexample :
    Journal.commitOperation [⟨"op", "hydrate", "", JournalState.synced⟩] "op"
      = [⟨"op", "hydrate", "", JournalState.committed⟩] ∧
    Journal.syncOperation [⟨"op", "hydrate", "", JournalState.rolled_back⟩] "op"
      = [⟨"op", "hydrate", "", JournalState.synced⟩] := by
  constructor <;> decide

/-- C5, amended. `CommitOperation`, `SyncOperation` and `RollbackOperation`
set the state of every row carrying the given operation id to `committed`,
`synced` and `rolled_back` respectively regardless of its current state — so
`pending → committed → synced` and the rollback transitions are realized, but
`synced` and `rolled_back` are not terminal — and rows with any other
operation id are left in place unchanged. -/
theorem c5_journal_amended (j : Journal.Table) (opId : String) :
    (∀ r ∈ Journal.commitOperation j opId, r.operationId = opId →
       r.state = JournalState.committed) ∧
    (∀ r ∈ Journal.syncOperation j opId, r.operationId = opId →
       r.state = JournalState.synced) ∧
    (∀ r ∈ Journal.rollbackOperation j opId, r.operationId = opId →
       r.state = JournalState.rolled_back) ∧
    (∀ r ∈ j, r.operationId ≠ opId →
       r ∈ Journal.commitOperation j opId ∧ r ∈ Journal.syncOperation j opId ∧
       r ∈ Journal.rollbackOperation j opId) := by
  refine ⟨?_, ?_, ?_, ?_⟩
  · intro r hr hid
    simp only [Journal.commitOperation, List.mem_map] at hr
    obtain ⟨s, _, rfl⟩ := hr
    by_cases h : s.operationId = opId
    · simp [h]
    · simp only [if_neg h] at hid
      exact absurd hid h
  · intro r hr hid
    simp only [Journal.syncOperation, List.mem_map] at hr
    obtain ⟨s, _, rfl⟩ := hr
    by_cases h : s.operationId = opId
    · simp [h]
    · simp only [if_neg h] at hid
      exact absurd hid h
  · intro r hr hid
    simp only [Journal.rollbackOperation, List.mem_map] at hr
    obtain ⟨s, _, rfl⟩ := hr
    by_cases h : s.operationId = opId
    · simp [h]
    · simp only [if_neg h] at hid
      exact absurd hid h
  · intro r hr hid
    refine ⟨?_, ?_, ?_⟩
    · simp only [Journal.commitOperation, List.mem_map]
      exact ⟨r, hr, by simp [hid]⟩
    · simp only [Journal.syncOperation, List.mem_map]
      exact ⟨r, hr, by simp [hid]⟩
    · simp only [Journal.rollbackOperation, List.mem_map]
      exact ⟨r, hr, by simp [hid]⟩

/-- C5, witness for the amended theorem at a one-row journal. -/
theorem c5_journal_amended_witness :
    (⟨"op", "hydrate", "", JournalState.committed⟩ : Journal.JournalRow).state
      = JournalState.committed :=
  (c5_journal_amended [⟨"op", "hydrate", "", JournalState.pending⟩] "op").1
    ⟨"op", "hydrate", "", JournalState.committed⟩ (by decide) rfl

/-- C10. When no cache row exists for the key, `Evict` with the confirmation
flag set returns success and changes neither the cache table nor the
filesystem: evicting an absent entry is a no-op, not a not-found error. -/
theorem c10_evict_absent_noop (db : Cache.CacheDb) (fs : Fs) (e v : Int)
    (habsent : ∀ r ∈ db, ¬(r.entryId = e ∧ r.versionId = v)) :
    Cache.evict db fs e v true = Except.ok (db, fs) := by
  have hfind : db.find? (fun r => r.entryId == e && r.versionId == v) = none := by
    rw [List.find?_eq_none]
    intro r hr
    have := habsent r hr
    simp only [Bool.and_eq_true, beq_iff_eq]
    tauto
  simp [Cache.evict, hfind]

/-- C10, witness: evicting from an empty cache succeeds without change. -/
theorem c10_evict_absent_noop_witness :
    Cache.evict [] [("p", "x")] 1 2 true = Except.ok ([], [("p", "x")]) :=
  c10_evict_absent_noop [] [("p", "x")] 1 2 (by simp)

/-- C7, counterexample. A cache row in state `stale` whose file still exists
makes `Get` return its path (and update last-accessed): the row-state filter
of the source is `state != pending_eviction`, not `state = valid`, so a path
is returned for a row that is not `valid`. -/
theorem c7_cache_get_counterexample :
    Cache.get [⟨1, 1, "cache/1/1/data", false, CacheState.stale, 0⟩] [("cache/1/1/data", "x")]
        5 1 1
      = Except.ok (some "cache/1/1/data",
          [⟨1, 1, "cache/1/1/data", false, CacheState.stale, 5⟩]) := by
  rfl

/-- C7, amended. `Get` never raises: it returns a path exactly when a row for
the key exists in a state other than `pending_eviction` (whether `valid` or
`stale`) and the file at its cache path exists, updating the last-accessed
timestamp of the key as a side effect; a missing row or a missing file yields
absent with the table unchanged. -/
theorem c7_cache_get_amended (db : Cache.CacheDb) (fs : Fs) (now : Nat) (e v : Int) :
    (∃ r, db.find? (Cache.getRowPred e v) = some r ∧
       r.entryId = e ∧ r.versionId = v ∧ r.state ≠ CacheState.pending_eviction ∧
       (fsLookup fs r.cachePath).isSome ∧
       Cache.get db fs now e v =
         Except.ok (some r.cachePath, Cache.updateLastAccessed db now e v)) ∨
    Cache.get db fs now e v = Except.ok (none, db) := by
  rcases hfind : db.find? (Cache.getRowPred e v) with _ | r
  · right
    simp [Cache.get, hfind]
  · have hpred := List.find?_some hfind
    simp only [Cache.getRowPred, Bool.and_eq_true, beq_iff_eq, bne_iff_ne] at hpred
    rcases hfs : fsLookup fs r.cachePath with _ | c
    · right
      simp [Cache.get, hfind, hfs]
    · left
      refine ⟨r, rfl, hpred.1.1, hpred.1.2, hpred.2, by simp [hfs], ?_⟩
      simp [Cache.get, hfind, hfs]

/-- Lookup after an erase: the erased path is gone, others are untouched. -/
theorem fsLookup_fsErase (fs : Fs) (p q : String) :
    fsLookup (fsErase fs q) p = if p = q then none else fsLookup fs p := by
  induction fs with
  | nil => by_cases hpq : p = q <;> simp [fsLookup, fsErase, hpq]
  | cons kv t ih =>
    by_cases hq : kv.1 = q <;> by_cases hp : kv.1 = p <;> by_cases hpq : p = q <;>
      simp_all [fsErase, fsLookup, List.filter_cons]

/-- Lookup after an insert: the inserted path has the new contents, others
are untouched. -/
theorem fsLookup_fsInsert (fs : Fs) (p q c : String) :
    fsLookup (fsInsert fs q c) p = if p = q then some c else fsLookup fs p := by
  by_cases hpq : p = q <;>
    simp [fsInsert, fsLookup, hpq, eq_comm, fsLookup_fsErase fs p q]

/-- Two appends to the same string with suffixes of different lengths differ. -/
theorem append_ne_append_of_length_ne (s a b : String) (h : a.length ≠ b.length) :
    s ++ a ≠ s ++ b := by
  intro heq
  have hl := congrArg String.length heq
  rw [String.length_append, String.length_append] at hl
  omega

/-- The real path differs from its temp sibling. -/
theorem realPath_ne_tempPath (s : String) : s ≠ s ++ ".cloudfs.tmp" := by
  intro heq
  have hl := congrArg String.length heq
  rw [String.length_append] at hl
  have h12 : (".cloudfs.tmp" : String).length = 12 := rfl
  omega

/-- C2. Whenever any step of `AtomicSwap` fails — the cache file is missing,
the recomputed fingerprint disagrees with the expected one, the size differs,
the copy fails, or the rename fails — the file at the target real path and
the placeholder file are both exactly what they were before the call: no new
real file becomes observable and the placeholder stays intact. -/
theorem c2_atomic_swap_failure_preserves_target (rootDir : String) (hashFn : String → String)
    (env : Placeholder.SwapEnv) (fs : Fs) (entry : Entry)
    (cachePath expectedHash parentPath : String)
    (hfail : Placeholder.isError
      (Placeholder.atomicSwap rootDir hashFn env fs entry cachePath expectedHash parentPath).1
        = true) :
    fsLookup (Placeholder.atomicSwap rootDir hashFn env fs entry cachePath expectedHash
        parentPath).2 (Placeholder.getRealPath rootDir entry parentPath)
      = fsLookup fs (Placeholder.getRealPath rootDir entry parentPath) ∧
    fsLookup (Placeholder.atomicSwap rootDir hashFn env fs entry cachePath expectedHash
        parentPath).2 (Placeholder.getPlaceholderPath rootDir entry parentPath)
      = fsLookup fs (Placeholder.getPlaceholderPath rootDir entry parentPath) := by
  have hph : Placeholder.getPlaceholderPath rootDir entry parentPath
      = Placeholder.getRealPath rootDir entry parentPath ++ ".cloudfs" := rfl
  have hrt := realPath_ne_tempPath (Placeholder.getRealPath rootDir entry parentPath)
  have hpt : Placeholder.getPlaceholderPath rootDir entry parentPath
      ≠ Placeholder.getRealPath rootDir entry parentPath ++ ".cloudfs.tmp" := by
    rw [hph]
    exact append_ne_append_of_length_ne _ ".cloudfs" ".cloudfs.tmp" (by decide)
  unfold Placeholder.atomicSwap at hfail ⊢
  rcases hcache : fsLookup fs cachePath with _ | contents
  · exact ⟨rfl, rfl⟩
  · rw [hcache] at hfail
    dsimp only at hfail ⊢
    split_ifs at hfail ⊢ with h1 h2 h3 h4 h5
    · exact ⟨rfl, rfl⟩
    · exact ⟨rfl, rfl⟩
    · constructor
      · rw [fsLookup_fsErase, if_neg hrt]
      · rw [fsLookup_fsErase, if_neg hpt]
    · constructor
      · rw [fsLookup_fsErase, if_neg hrt, fsLookup_fsInsert, if_neg hrt]
      · rw [fsLookup_fsErase, if_neg hpt, fsLookup_fsInsert, if_neg hpt]
    · simp [Placeholder.isError] at hfail
    · simp [Placeholder.isError] at hfail

/-- The selected side of the evaluation loop is the passing providers, in
order, as placement records. -/
theorem evalProviders_fst (fileName : String) (fileSize : Int) (encrypted : Bool)
    (ps : List Planner.ProviderInfo) :
    (Planner.evalProviders fileName fileSize encrypted ps).1 =
      (ps.filter (Planner.passes fileSize encrypted)).map
        (fun p => Planner.mkPlacement p fileName fileSize) := by
  induction ps with
  | nil => rfl
  | cons p t ih =>
    by_cases hc1 : (p.requiresEncryption && !encrypted) = true <;>
      by_cases hc2 : (p.hardLimit.isSome && p.freeSpace < fileSize) = true <;>
        simp [Planner.evalProviders, Planner.passes, List.filter_cons, hc1, hc2, ih]

/-- The rejected side of the evaluation loop is the failing providers, in
order, with their rejection reasons. -/
theorem evalProviders_snd (fileName : String) (fileSize : Int) (encrypted : Bool)
    (ps : List Planner.ProviderInfo) :
    (Planner.evalProviders fileName fileSize encrypted ps).2 =
      (ps.filter (fun p => !Planner.passes fileSize encrypted p)).map
        (Planner.rejectionOf fileSize encrypted) := by
  induction ps with
  | nil => rfl
  | cons p t ih =>
    by_cases hc1 : (p.requiresEncryption && !encrypted) = true <;>
      by_cases hc2 : (p.hardLimit.isSome && p.freeSpace < fileSize) = true <;>
        simp [Planner.evalProviders, Planner.passes, Planner.rejectionOf,
          List.filter_cons, hc1, hc2, ih]

/-- The rejection record always names the provider it rejects. -/
theorem rejectionOf_providerId (fileSize : Int) (encrypted : Bool)
    (p : Planner.ProviderInfo) :
    (Planner.rejectionOf fileSize encrypted p).providerId = toString p.id := by
  unfold Planner.rejectionOf
  split_ifs <;> rfl

/-- One inner pass of the sort permutes the slot value and the suffix. -/
theorem selectMin_perm (cur : Planner.PlannedPlacement) (l : List Planner.PlannedPlacement) :
    ((Planner.selectMin cur l).1 :: (Planner.selectMin cur l).2).Perm (cur :: l) := by
  induction l generalizing cur with
  | nil => simp [Planner.selectMin]
  | cons x xs ih =>
    simp only [Planner.selectMin]
    split_ifs with h
    · exact (List.Perm.swap cur (Planner.selectMin x xs).1 (Planner.selectMin x xs).2).trans
        ((ih x).cons cur)
    · exact (List.Perm.swap x (Planner.selectMin cur xs).1 (Planner.selectMin cur xs).2).trans
        (((ih cur).cons x).trans (List.Perm.swap cur x xs))

/-- The inner pass preserves the length of the suffix. -/
theorem selectMin_length (cur : Planner.PlannedPlacement) (l : List Planner.PlannedPlacement) :
    (Planner.selectMin cur l).2.length = l.length := by
  have hl := (selectMin_perm cur l).length_eq
  simpa using hl

/-- With enough fuel, the sorting loop permutes its input. -/
theorem sortGo_perm : ∀ (n : Nat) (l : List Planner.PlannedPlacement), l.length ≤ n →
    (Planner.sortGo n l).Perm l := by
  intro n
  induction n with
  | zero =>
    intro l h
    cases l with
    | nil => simp [Planner.sortGo]
    | cons x xs => simp at h
  | succ n ih =>
    intro l h
    cases l with
    | nil => simp [Planner.sortGo]
    | cons x xs =>
      simp only [Planner.sortGo]
      have hlen : (Planner.selectMin x xs).2.length ≤ n := by
        have hsl := selectMin_length x xs
        simp only [List.length_cons] at h
        omega
      exact ((ih _ hlen).cons _).trans (selectMin_perm x xs)

/-- Sorting the placements changes only their order. -/
theorem mem_sortPlacements (x : Planner.PlannedPlacement) (l : List Planner.PlannedPlacement) :
    x ∈ Planner.sortPlacements l ↔ x ∈ l :=
  (sortGo_perm l.length l le_rfl).mem_iff

/-- For a non-empty provider list, the two lists of the plan are the sorted
passing providers and the failing providers with reasons. -/
theorem plan_lists (getLive : String → Option Int) (providers0 : List Planner.ProviderInfo)
    (fileName : String) (fileSize : Int) (encrypted : Bool) (h : providers0 ≠ []) :
    (Planner.plan getLive providers0 fileName fileSize encrypted).placements =
      Planner.sortPlacements
        (((providers0.map (fun p => { p with freeSpace := (getLive p.remote).getD 0 })).filter
            (Planner.passes fileSize encrypted)).map
          (fun p => Planner.mkPlacement p fileName fileSize)) ∧
    (Planner.plan getLive providers0 fileName fileSize encrypted).rejectedProviders =
      ((providers0.map (fun p => { p with freeSpace := (getLive p.remote).getD 0 })).filter
          (fun p => !Planner.passes fileSize encrypted p)).map
        (Planner.rejectionOf fileSize encrypted) := by
  have hne : providers0.isEmpty = false := by
    cases providers0 with
    | nil => exact absurd rfl h
    | cons a t => rfl
  unfold Planner.plan
  rw [hne]
  simp only [Bool.false_eq_true, if_false, evalProviders_fst, evalProviders_snd]
  split_ifs <;> exact ⟨rfl, rfl⟩

/-- C3, counterexample. A provider with no configured hard byte limit whose
live free-space query returns 0 (less than the file size 5) is selected, not
rejected: the hard-limit rejection of `Plan` is gated on a configured hard
limit, so the claim fails for providers without one. -/
theorem c3_planner_counterexample :
    (Planner.plan (fun _ => some 0)
        [⟨1, "p1", "rclone", "active", 1, none, none, false, "r1", 0⟩]
        "f.txt" 5 false).rejectedProviders = [] ∧
    ((Planner.plan (fun _ => some 0)
        [⟨1, "p1", "rclone", "active", 1, none, none, false, "r1", 0⟩]
        "f.txt" 5 false).placements.map (fun q => q.providerId)) = ["1"] := by
  constructor <;> rfl

/-- C3, amended. For an encryption-compatible provider considered by `Plan`:
when a hard byte limit is configured and the live free space (0 on a failed
query, never the cached usage column, which `Plan` does not read) is less
than the file size, the provider lands in the rejected list and in no
selected placement; when no hard limit is configured the provider is selected
regardless of its live free space and never rejected. -/
theorem c3_planner_amended (getLive : String → Option Int)
    (providers0 : List Planner.ProviderInfo) (fileName : String) (fileSize : Int)
    (encrypted : Bool) (p : Planner.ProviderInfo) (hp : p ∈ providers0)
    (hnodup : (providers0.map (fun q => toString q.id)).Nodup)
    (henc : p.requiresEncryption = false ∨ encrypted = true) :
    (p.hardLimit.isSome = true → (getLive p.remote).getD 0 < fileSize →
       (({ providerId := toString p.id, providerName := p.name,
           reason := Planner.hardLimitReason fileSize ((getLive p.remote).getD 0) } :
             Planner.RejectedProvider)
           ∈ (Planner.plan getLive providers0 fileName fileSize encrypted).rejectedProviders ∧
        ∀ q ∈ (Planner.plan getLive providers0 fileName fileSize encrypted).placements,
          q.providerId ≠ toString p.id)) ∧
    (p.hardLimit = none →
       (Planner.mkPlacement { p with freeSpace := (getLive p.remote).getD 0 } fileName fileSize
           ∈ (Planner.plan getLive providers0 fileName fileSize encrypted).placements ∧
        ∀ q ∈ (Planner.plan getLive providers0 fileName fileSize encrypted).rejectedProviders,
          q.providerId ≠ toString p.id)) := by
  have hne : providers0 ≠ [] := by
    intro hnil
    rw [hnil] at hp
    exact absurd hp (List.not_mem_nil p)
  obtain ⟨hplc, hrej⟩ := plan_lists getLive providers0 fileName fileSize encrypted hne
  set live := fun q : Planner.ProviderInfo => { q with freeSpace := (getLive q.remote).getD 0 }
    with hlive
  have hinj := List.inj_on_of_nodup_map hnodup
  have hencb : ((live p).requiresEncryption && !encrypted) = false := by
    rcases henc with h | h <;> simp [hlive, h]
  constructor
  · intro hhard hfree
    have hfails : Planner.passes fileSize encrypted (live p) = false := by
      simp only [Planner.passes, hencb, Bool.not_false, Bool.true_and]
      simp [hlive, hhard, hfree]
    constructor
    · rw [hrej]
      have hmem : live p ∈ (providers0.map live).filter
          (fun q => !Planner.passes fileSize encrypted q) := by
        rw [List.mem_filter]
        exact ⟨List.mem_map_of_mem live hp, by simp [hfails]⟩
      have := List.mem_map_of_mem (Planner.rejectionOf fileSize encrypted) hmem
      simpa [Planner.rejectionOf, hlive, hencb] using this
    · intro q hq heq
      rw [hplc] at hq
      rw [mem_sortPlacements] at hq
      obtain ⟨pP, hpP, rfl⟩ := List.mem_map.mp hq
      obtain ⟨hpPmem, hpPpass⟩ := List.mem_filter.mp hpP
      obtain ⟨p0, hp0, rfl⟩ := List.mem_map.mp hpPmem
      have hid : toString p0.id = toString p.id := by
        simpa [Planner.mkPlacement, hlive] using heq
      have : p0 = p := hinj hp0 hp hid
      subst this
      rw [hpPpass] at hfails
      exact absurd hfails (by simp)
  · intro hnone
    have hpass : Planner.passes fileSize encrypted (live p) = true := by
      simp [Planner.passes, hencb, hlive, hnone]
    constructor
    · rw [hplc, mem_sortPlacements]
      exact List.mem_map_of_mem _ (List.mem_filter.mpr ⟨List.mem_map_of_mem live hp, hpass⟩)
    · intro q hq heq
      rw [hrej] at hq
      obtain ⟨pF, hpF, rfl⟩ := List.mem_map.mp hq
      obtain ⟨hpFmem, hpFfail⟩ := List.mem_filter.mp hpF
      obtain ⟨p0, hp0, rfl⟩ := List.mem_map.mp hpFmem
      have hid : toString p0.id = toString p.id := by
        simpa [rejectionOf_providerId, hlive] using heq
      have : p0 = p := hinj hp0 hp hid
      subst this
      rw [hpass] at hpFfail
      exact absurd hpFfail (by simp)

/-- C3, witness for the amended theorem: a provider with a configured hard
limit and live free space 3 < 5 is rejected with the hard-limit reason. -/
theorem c3_planner_amended_witness :
    ({ providerId := toString (1 : Int), providerName := "p1",
       reason := Planner.hardLimitReason 5 3 } : Planner.RejectedProvider)
      ∈ (Planner.plan (fun _ => some 3)
          [⟨1, "p1", "rclone", "active", 1, none, some 10, false, "r1", 0⟩]
          "f.txt" 5 false).rejectedProviders :=
  ((c3_planner_amended (fun _ => some 3)
      [⟨1, "p1", "rclone", "active", 1, none, some 10, false, "r1", 0⟩]
      "f.txt" 5 false ⟨1, "p1", "rclone", "active", 1, none, some 10, false, "r1", 0⟩
      (by simp) (by simp) (Or.inl rfl)).1 rfl (by norm_num)).1

/-- Downgrading the head placement commutes with the fate of the remaining
batch, when the head id does not recur in the tail. -/
theorem rowFate_downgrade (env : DeleteCoord.RemoteEnv) (t : List DeleteCoord.PlacementRef)
    (p : DeleteCoord.PlacementRef) (db : List PlacementRow)
    (hhead : p.placementId ∉ t.map (fun q => q.placementId))
    (hfail : DeleteCoord.deleteSucceeds env p = false) :
    (DeleteCoord.downgradePlacement db p.placementId).filterMap (DeleteCoord.rowFate env t)
      = db.filterMap (DeleteCoord.rowFate env (p :: t)) := by
  induction db with
  | nil => rfl
  | cons r d ih =>
    have hkey : DeleteCoord.rowFate env t
        (if r.id == p.placementId then { r with state := PlacementState.degraded } else r)
          = DeleteCoord.rowFate env (p :: t) r := by
      by_cases hid : r.id = p.placementId
      · have hcond : (r.id == p.placementId) = true := by simp [hid]
        rw [if_pos hcond]
        have hnone : t.find? (fun q => q.placementId == r.id) = none := by
          rw [List.find?_eq_none]
          intro q hq hqe
          apply hhead
          have hqp : q.placementId = p.placementId := by
            have h1 : q.placementId = r.id := by simpa using hqe
            rw [h1, hid]
          rw [← hqp]
          exact List.mem_map_of_mem (fun q => q.placementId) hq
        have hpp : (p.placementId == r.id) = true := by simp [hid]
        simp [DeleteCoord.rowFate, List.find?_cons, hpp, hnone, hfail]
      · have hcond : (r.id == p.placementId) = false := by simp [hid]
        rw [if_neg (by simp [hcond])]
        have hpp : (p.placementId == r.id) = false := by
          simp only [beq_eq_false_iff_ne, ne_eq]
          exact fun h => hid h.symm
        simp [DeleteCoord.rowFate, List.find?_cons, hpp]
    simp only [DeleteCoord.downgradePlacement] at ih ⊢
    simp only [List.map_cons, List.filterMap_cons, hkey, ih]

/-- Removing the rows of a successfully deleted head placement commutes with
the fate of the remaining batch. -/
theorem rowFate_remove (env : DeleteCoord.RemoteEnv) (t : List DeleteCoord.PlacementRef)
    (p : DeleteCoord.PlacementRef) (db : List PlacementRow)
    (hsucc : DeleteCoord.deleteSucceeds env p = true) :
    (db.filter (fun r => !(r.id == p.placementId))).filterMap (DeleteCoord.rowFate env t)
      = db.filterMap (DeleteCoord.rowFate env (p :: t)) := by
  induction db with
  | nil => rfl
  | cons r d ih =>
    by_cases hid : r.id = p.placementId
    · have hcond : (r.id == p.placementId) = true := by simp [hid]
      have hpp : (p.placementId == r.id) = true := by simp [hid]
      have hfate : DeleteCoord.rowFate env (p :: t) r = none := by
        simp [DeleteCoord.rowFate, List.find?_cons, hpp, hsucc]
      simp [List.filter_cons, hcond, List.filterMap_cons, hfate, ih]
    · have hcond : (r.id == p.placementId) = false := by simp [hid]
      have hpp : (p.placementId == r.id) = false := by
        simp only [beq_eq_false_iff_ne, ne_eq]
        exact fun h => hid h.symm
      have hfate : DeleteCoord.rowFate env (p :: t) r = DeleteCoord.rowFate env t r := by
        simp [DeleteCoord.rowFate, List.find?_cons, hpp]
      simp [List.filter_cons, hcond, List.filterMap_cons, hfate, ih]

/-- The batch loop of `Execute`: counts, error messages and the final table,
for a batch with no repeated placement id. -/
theorem executeLoop_spec (env : DeleteCoord.RemoteEnv) :
    ∀ (ps : List DeleteCoord.PlacementRef) (db : List PlacementRow)
      (res : DeleteCoord.DeleteResult),
    (ps.map (fun p => p.placementId)).Nodup →
    ps.foldl (DeleteCoord.executeStep env) (res, db) =
      ({ deleted := res.deleted + ps.countP (fun p => DeleteCoord.deleteSucceeds env p),
         failed := res.failed + ps.countP (fun p => !DeleteCoord.deleteSucceeds env p),
         errors := res.errors ++ ps.filterMap (DeleteCoord.failureMessage env) },
       db.filterMap (DeleteCoord.rowFate env ps)) := by
  intro ps
  induction ps with
  | nil =>
    intro db res hnd
    simp only [List.foldl_nil, List.countP_nil, List.filterMap_nil, List.append_nil,
      Nat.add_zero]
    have : db.filterMap (DeleteCoord.rowFate env []) = db := by
      induction db with
      | nil => rfl
      | cons r d ihd => simp [List.filterMap_cons, DeleteCoord.rowFate, ihd]
    rw [this]
  | cons p t ih =>
    intro db res hnd
    simp only [List.map_cons, List.nodup_cons] at hnd
    obtain ⟨hhead, htail⟩ := hnd
    simp only [List.foldl_cons]
    by_cases hdel : (env p.remotePath).deleteOk = true
    · by_cases hlist : (env p.remotePath).stillListed = true
      · have hfail : DeleteCoord.deleteSucceeds env p = false := by
          simp [DeleteCoord.deleteSucceeds, hdel, hlist]
        have hstep : DeleteCoord.executeStep env (res, db) p =
            ({ res with
                failed := res.failed + 1,
                errors := res.errors ++ ["verification failed: " ++ p.remotePath ++ " still exists on " ++ p.providerId] },
             DeleteCoord.downgradePlacement db p.placementId) := by
          simp [DeleteCoord.executeStep, hdel, hlist]
        rw [hstep, ih _ _ htail, rowFate_downgrade env t p db hhead hfail]
        have hmsg : DeleteCoord.failureMessage env p =
            some ("verification failed: " ++ p.remotePath ++ " still exists on " ++
              p.providerId) := by
          simp [DeleteCoord.failureMessage, hdel, hlist]
        simp [List.countP_cons, hfail, hmsg, List.filterMap_cons]
        omega
      · have hsucc : DeleteCoord.deleteSucceeds env p = true := by
          simp [DeleteCoord.deleteSucceeds, hdel, hlist]
        have hstep : DeleteCoord.executeStep env (res, db) p =
            ({ res with deleted := res.deleted + 1 },
             db.filter (fun r => !(r.id == p.placementId))) := by
          simp [DeleteCoord.executeStep, hdel, hlist]
        rw [hstep, ih _ _ htail, rowFate_remove env t p db hsucc]
        have hmsg : DeleteCoord.failureMessage env p = none := by
          simp [DeleteCoord.failureMessage, hdel, hlist]
        simp [List.countP_cons, hsucc, hmsg, List.filterMap_cons]
        omega
    · have hfail : DeleteCoord.deleteSucceeds env p = false := by
        simp [DeleteCoord.deleteSucceeds, hdel]
      have hstep : DeleteCoord.executeStep env (res, db) p =
          ({ res with
              failed := res.failed + 1,
              errors := res.errors ++ ["failed to delete " ++ p.remotePath ++ " from " ++ p.providerId] },
           DeleteCoord.downgradePlacement db p.placementId) := by
        simp [DeleteCoord.executeStep, hdel]
      rw [hstep, ih _ _ htail, rowFate_downgrade env t p db hhead hfail]
      have hmsg : DeleteCoord.failureMessage env p =
          some ("failed to delete " ++ p.remotePath ++ " from " ++ p.providerId) := by
        simp [DeleteCoord.failureMessage, hdel]
      simp [List.countP_cons, hfail, hmsg, List.filterMap_cons]
      omega

/-- C6. `Execute` without confirmation refuses with the confirmation error
(before any side effect); with confirmation, on a non-dry-run batch without
repeated placement ids, it processes every placement: the deleted count is
the number of placements whose remote delete succeeded and verified gone (and
exactly their rows are removed), the failed count is the number of placements
whose remote delete or verification failed (and exactly their rows are
downgraded to `degraded`, with an error recorded), and rows outside the batch
are untouched — partial failures never stop the loop. -/
theorem c6_delete_coordinator_execute (env : DeleteCoord.RemoteEnv) (db : List PlacementRow)
    (req : DeleteCoord.DeleteRequest) (hdry : req.dryRun = false)
    (hnd : (req.placements.map (fun p => p.placementId)).Nodup) :
    DeleteCoord.execute env db req false
        = Except.error "deletion requires explicit confirmation" ∧
    DeleteCoord.execute env db req true =
      Except.ok
        ({ deleted := req.placements.countP (fun p => DeleteCoord.deleteSucceeds env p),
           failed := req.placements.countP (fun p => !DeleteCoord.deleteSucceeds env p),
           errors := req.placements.filterMap (DeleteCoord.failureMessage env) },
         db.filterMap (DeleteCoord.rowFate env req.placements)) := by
  constructor
  · rfl
  · unfold DeleteCoord.execute
    rw [hdry]
    simp only [Bool.not_true, Bool.false_eq_true, if_false]
    rw [executeLoop_spec env req.placements db _ hnd]
    simp

/-- C6, witness: a two-placement batch where the first remote delete succeeds
and the second fails removes the first row, downgrades the second, and counts
one deleted and one failed. -/
theorem c6_delete_coordinator_execute_witness :
    DeleteCoord.execute
        (fun r => if r == "a" then ⟨true, false⟩ else ⟨false, false⟩)
        [⟨1, 10, "p", "a", PlacementState.uploaded, none⟩,
         ⟨2, 10, "p", "b", PlacementState.uploaded, none⟩]
        ⟨[⟨1, 10, "p", "a", "f", 5⟩, ⟨2, 10, "p", "b", "g", 6⟩], false,
          DeleteCoord.DeleteSource.trashPurge⟩ true =
      Except.ok
        ({ deleted := 1, failed := 1, errors := ["failed to delete b from p"] },
         [⟨2, 10, "p", "b", PlacementState.degraded, none⟩]) :=
  (c6_delete_coordinator_execute
      (fun r => if r == "a" then ⟨true, false⟩ else ⟨false, false⟩)
      [⟨1, 10, "p", "a", PlacementState.uploaded, none⟩,
       ⟨2, 10, "p", "b", PlacementState.uploaded, none⟩]
      ⟨[⟨1, 10, "p", "a", "f", 5⟩, ⟨2, 10, "p", "b", "g", 6⟩], false,
        DeleteCoord.DeleteSource.trashPurge⟩ rfl (by decide)).2

/-- C4, counterexample. An entry whose hydration row says `hydrated` with
recorded hydrated version id 1, while the active version has id 2, still gets
the success short-circuit: `Hydrate` returns success, changes nothing, emits
no journal or download action — even though the hydrated version id differs
from the active version id (the source compares only the state, not the
version id). -/
theorem c4_hydrate_short_circuit_counterexample :
    Hydration.hydrate
        { registryHas := fun _ => true, download := fun _ _ => Except.error "network",
          swapEnv := ⟨false, false⟩, hashFn := fun s => s, rootDir := "r", now := 0 }
        { entries := [⟨7, "a", EntryType.file, 5⟩],
          versions := [⟨2, 7, 1, "h", 5, VersionState.active⟩],
          placements := [], hydrationRows := [⟨7, HydrationState.hydrated, some 1, 100, none⟩],
          cacheRows := [], journal := [], fs := [], nextOp := 0 }
        7 false
      = (Except.ok ⟨7, 2, true, 0⟩,
         { entries := [⟨7, "a", EntryType.file, 5⟩],
           versions := [⟨2, 7, 1, "h", 5, VersionState.active⟩],
           placements := [], hydrationRows := [⟨7, HydrationState.hydrated, some 1, 100, none⟩],
           cacheRows := [], journal := [], fs := [], nextOp := 0 }, []) := by
  rfl

/-- C4, amended. For a file entry with an active version whose hydration row
is in state `hydrated` — for any recorded hydrated version id — `Hydrate`
returns success immediately: no download, no journal action, no change to the
index tables or the filesystem. -/
theorem c4_hydrate_amended (env : Hydration.Env) (st : Hydration.St) (entryId : Int)
    (pinOpt : Bool) (entry : Entry) (version : VersionRow)
    (hentry : Hydration.getEntry st.entries entryId = some entry)
    (hfile : ¬entry.type = EntryType.directory)
    (hver : Hydration.getActiveVersion st.versions entryId = some version)
    (hhyd : (Hydration.getHydrationState st.hydrationRows entryId).currentState
      = HydrationState.hydrated) :
    Hydration.hydrate env st entryId pinOpt =
      (Except.ok { entryId := entryId, versionId := version.id, success := true,
                   bytesLoaded := 0 }, st, []) := by
  unfold Hydration.hydrate
  rw [hentry]
  dsimp only
  rw [if_neg hfile, hver]
  dsimp only
  rw [if_pos hhyd]

/-- C4, witness for the amended theorem: the ordinary idempotent case, with
the hydrated version id equal to the active version id. -/
theorem c4_hydrate_amended_witness :
    Hydration.hydrate
        { registryHas := fun _ => true, download := fun _ _ => Except.error "network",
          swapEnv := ⟨false, false⟩, hashFn := fun s => s, rootDir := "r", now := 0 }
        { entries := [⟨7, "a", EntryType.file, 5⟩],
          versions := [⟨2, 7, 1, "h", 5, VersionState.active⟩],
          placements := [], hydrationRows := [⟨7, HydrationState.hydrated, some 2, 100, none⟩],
          cacheRows := [], journal := [], fs := [], nextOp := 0 }
        7 true
      = (Except.ok ⟨7, 2, true, 0⟩,
         { entries := [⟨7, "a", EntryType.file, 5⟩],
           versions := [⟨2, 7, 1, "h", 5, VersionState.active⟩],
           placements := [], hydrationRows := [⟨7, HydrationState.hydrated, some 2, 100, none⟩],
           cacheRows := [], journal := [], fs := [], nextOp := 0 }, []) :=
  c4_hydrate_amended
    { registryHas := fun _ => true, download := fun _ _ => Except.error "network",
      swapEnv := ⟨false, false⟩, hashFn := fun s => s, rootDir := "r", now := 0 }
    { entries := [⟨7, "a", EntryType.file, 5⟩],
      versions := [⟨2, 7, 1, "h", 5, VersionState.active⟩],
      placements := [], hydrationRows := [⟨7, HydrationState.hydrated, some 2, 100, none⟩],
      cacheRows := [], journal := [], fs := [], nextOp := 0 }
    7 true ⟨7, "a", EntryType.file, 5⟩ ⟨2, 7, 1, "h", 5, VersionState.active⟩
    rfl (by decide) rfl rfl

/-- C1. Evaluating `TrashManager.Purge` (confirmed) on a trash row whose
entry has a placement: the trash row and the entry row are removed, yet the
placements table is untouched and the trace carries no delegation to the
delete coordinator — the remote removal the claim requires before local
deletion never happens anywhere in `Purge` (the source holds only a comment
that provider deletion "would happen here"); `PurgeAll` and `PurgeExpired`
likewise never invoke the coordinator. -/
theorem c1_trash_purge_no_remote_delegation :
    Trash.purge
        { entries := [⟨7, "a", EntryType.file, 5⟩],
          versions := [⟨3, 7, 1, "h", 5, VersionState.deleted⟩],
          placements := [⟨21, 3, "p1", "remote:/a", PlacementState.uploaded, none⟩],
          trash := [⟨1, 7, "/a", some 3, none⟩],
          journal := [], nextTrashId := 2, nextOp := 0 }
        1 true
      = (Except.ok (),
         { entries := [],
           versions := [⟨3, 7, 1, "h", 5, VersionState.deleted⟩],
           placements := [⟨21, 3, "p1", "remote:/a", PlacementState.uploaded, none⟩],
           trash := [],
           journal := [⟨"op-0", "trash_purge", "", JournalState.synced⟩],
           nextTrashId := 2, nextOp := 1 },
         [Trash.Event.journalBegin "trash_purge", Trash.Event.journalCommit,
          Trash.Event.journalSync]) := by
  rfl

/-- When the filter has exactly one hit, find? returns it. -/
theorem find?_of_filter_eq_singleton {α : Type} (p : α → Bool) :
    ∀ (l : List α) (a : α), l.filter p = [a] → l.find? p = some a := by
  intro l
  induction l with
  | nil =>
    intro a h
    simp at h
  | cons x t ih =>
    intro a h
    by_cases hx : p x = true
    · rw [List.filter_cons_of_pos hx] at h
      injection h with h1 h2
      rw [List.find?_cons_of_pos t hx, h1]
    · rw [List.filter_cons_of_neg hx] at h
      rw [List.find?_cons_of_neg t hx]
      exact ih a h

/-- Marking every version of the entry deleted and then flipping the unique
active version back leaves the active filter of the table unchanged. -/
theorem roundtrip_filter (e : Int) (v : VersionRow) (l : List VersionRow)
    (hactive : l.filter (fun w => w.entryId == e && w.state == VersionState.active) = [v])
    (hids : (l.map (fun w => w.id)).Nodup) :
    ((l.map (fun w => if w.entryId == e then { w with state := VersionState.deleted } else w)).map
        (fun w => if w.id == v.id then { w with state := VersionState.active } else w)).filter
      (fun w => w.entryId == e && w.state == VersionState.active) = [v] := by
  have hvfil : v ∈ l.filter (fun w => w.entryId == e && w.state == VersionState.active) := by
    rw [hactive]
    exact List.mem_singleton_self v
  have hvmem : v ∈ l := List.mem_of_mem_filter hvfil
  have hvq := List.of_mem_filter hvfil
  simp only [Bool.and_eq_true, beq_iff_eq] at hvq
  obtain ⟨hve, hvs⟩ := hvq
  have hinj := List.inj_on_of_nodup_map hids
  have hvv : ({ v with state := VersionState.active } : VersionRow) = v := by
    rw [← hvs]
  rw [List.map_map, List.filter_map]
  have hcong : ∀ w ∈ l,
      ((fun w : VersionRow => w.entryId == e && w.state == VersionState.active) ∘
        ((fun w : VersionRow =>
            if w.id == v.id then { w with state := VersionState.active } else w) ∘
          (fun w : VersionRow =>
            if w.entryId == e then { w with state := VersionState.deleted } else w))) w
        = (w.entryId == e && w.state == VersionState.active) := by
    intro w hw
    simp only [Function.comp_apply]
    by_cases hwid : w.id = v.id
    · have hw_eq : w = v := hinj hw hvmem (by simpa using hwid)
      subst hw_eq
      simp [hve, hvs]
    · by_cases hwe : w.entryId = e
      · have hws : ¬w.state = VersionState.active := by
          intro hws
          apply hwid
          have hwin : w ∈ l.filter
              (fun w => w.entryId == e && w.state == VersionState.active) :=
            List.mem_filter.mpr ⟨hw, by simp [hwe, hws]⟩
          rw [hactive] at hwin
          rw [List.mem_singleton.mp hwin]
        have hda : (VersionState.deleted == VersionState.active) = false := rfl
        simp [hwe, hwid, hws, hda]
      · simp [hwe, hwid]
  rw [List.filter_congr hcong, hactive]
  simp only [List.map_cons, List.map_nil, Function.comp_apply]
  simp [hve, hvs]
  rw [← hve, ← hvs]

/-- C8. For an entry whose active-version filter holds exactly one version,
`MoveToTrash` followed by `Restore` of the produced trash row succeeds, leaves
the active-version set of the entry exactly as before, and leaves the trash
table exactly as before — in particular, no trash row for the entry remains
when none existed before. -/
theorem c8_trash_roundtrip (st : Trash.St) (e : Int) (path : String) (autoPurgeDays : Int)
    (now : Nat) (v : VersionRow)
    (hactive : st.versions.filter
        (fun w => w.entryId == e && w.state == VersionState.active) = [v])
    (hids : (st.versions.map (fun w => w.id)).Nodup)
    (hfresh : ∀ t ∈ st.trash, t.id ≠ st.nextTrashId) :
    (Trash.moveToTrash st e path autoPurgeDays now).1 = Except.ok () ∧
    (Trash.restore (Trash.moveToTrash st e path autoPurgeDays now).2.1 st.nextTrashId).1
      = Except.ok () ∧
    Trash.activeVersionIds
        (Trash.restore (Trash.moveToTrash st e path autoPurgeDays now).2.1
          st.nextTrashId).2.1.versions e
      = Trash.activeVersionIds st.versions e ∧
    (Trash.restore (Trash.moveToTrash st e path autoPurgeDays now).2.1 st.nextTrashId).2.1.trash
      = st.trash := by
  have hfind : st.versions.find?
      (fun w => w.entryId == e && w.state == VersionState.active) = some v :=
    find?_of_filter_eq_singleton _ st.versions v hactive
  set newRow : Trash.TrashRow :=
    { id := st.nextTrashId, originalEntryId := e, originalPath := path,
      versionId := some v.id,
      autoPurgeAfter := if autoPurgeDays > 0 then some (now + autoPurgeDays.toNat) else none }
    with hnewRow
  have hmove : Trash.moveToTrash st e path autoPurgeDays now =
      (Except.ok (),
       { entries := st.entries,
         versions := st.versions.map (fun w =>
           if w.entryId == e then { w with state := VersionState.deleted } else w),
         placements := st.placements,
         trash := st.trash ++ [newRow],
         journal := Journal.syncOperation
           (Journal.commitOperation
             (Journal.beginOperation st.journal (Hydration.freshOpId st.nextOp) "trash_move" "")
             (Hydration.freshOpId st.nextOp))
           (Hydration.freshOpId st.nextOp),
         nextTrashId := st.nextTrashId + 1, nextOp := st.nextOp + 1 },
       [Trash.Event.journalBegin "trash_move", Trash.Event.journalCommit,
        Trash.Event.journalSync]) := by
    unfold Trash.moveToTrash
    rw [hfind]
    rfl
  have hnewfind : (st.trash ++ [newRow]).find? (fun t => t.id == st.nextTrashId)
      = some newRow := by
    rw [List.find?_append]
    have hnone : st.trash.find? (fun t => t.id == st.nextTrashId) = none := by
      rw [List.find?_eq_none]
      intro t ht
      simpa using hfresh t ht
    rw [hnone]
    simp [hnewRow]
  have htrash : (st.trash ++ [newRow]).filter (fun t => !(t.id == st.nextTrashId))
      = st.trash := by
    rw [List.filter_append]
    have h1 : st.trash.filter (fun t => !(t.id == st.nextTrashId)) = st.trash := by
      rw [List.filter_eq_self]
      intro t ht
      simpa using hfresh t ht
    rw [h1]
    simp [hnewRow]
  rw [hmove]
  simp only [Trash.restore, hnewfind, htrash, hnewRow]
  refine ⟨trivial, trivial, ?_, trivial⟩
  unfold Trash.activeVersionIds
  rw [roundtrip_filter e v st.versions hactive hids, hactive]

/-- C8, witness at a one-entry, two-version state. -/
theorem c8_trash_roundtrip_witness :
    (Trash.restore
        (Trash.moveToTrash
          { entries := [⟨7, "a", EntryType.file, 5⟩],
            versions := [⟨1, 7, 1, "h1", 3, VersionState.superseded⟩,
                         ⟨2, 7, 2, "h2", 5, VersionState.active⟩],
            placements := [], trash := [], journal := [], nextTrashId := 1, nextOp := 0 }
          7 "/a" 0 0).2.1 1).2.1.trash = [] ∧
    Trash.activeVersionIds
      (Trash.restore
        (Trash.moveToTrash
          { entries := [⟨7, "a", EntryType.file, 5⟩],
            versions := [⟨1, 7, 1, "h1", 3, VersionState.superseded⟩,
                         ⟨2, 7, 2, "h2", 5, VersionState.active⟩],
            placements := [], trash := [], journal := [], nextTrashId := 1, nextOp := 0 }
          7 "/a" 0 0).2.1 1).2.1.versions 7 = [2] :=
  have h := c8_trash_roundtrip
    { entries := [⟨7, "a", EntryType.file, 5⟩],
      versions := [⟨1, 7, 1, "h1", 3, VersionState.superseded⟩,
                   ⟨2, 7, 2, "h2", 5, VersionState.active⟩],
      placements := [], trash := [], journal := [], nextTrashId := 1, nextOp := 0 }
    7 "/a" 0 0 ⟨2, 7, 2, "h2", 5, VersionState.active⟩ (by decide) (by decide) (by simp)
  ⟨h.2.2.2, by rw [h.2.2.1]; rfl⟩

/-- C2, witness: a fingerprint mismatch (expected hash `"x"`, actual contents
hashing to themselves) leaves the placeholder file and the absent real file
untouched. -/
theorem c2_atomic_swap_failure_witness :
    fsLookup (Placeholder.atomicSwap "r" (fun s => s) ⟨false, false⟩
        [("c", "hello"), ("r/a.cloudfs", "ph")] ⟨1, "a", EntryType.file, 5⟩ "c" "x" "").2
      "r/a" = fsLookup [("c", "hello"), ("r/a.cloudfs", "ph")] "r/a" ∧
    fsLookup (Placeholder.atomicSwap "r" (fun s => s) ⟨false, false⟩
        [("c", "hello"), ("r/a.cloudfs", "ph")] ⟨1, "a", EntryType.file, 5⟩ "c" "x" "").2
      "r/a.cloudfs" = fsLookup [("c", "hello"), ("r/a.cloudfs", "ph")] "r/a.cloudfs" :=
  c2_atomic_swap_failure_preserves_target "r" (fun s => s) ⟨false, false⟩
    [("c", "hello"), ("r/a.cloudfs", "ph")] ⟨1, "a", EntryType.file, 5⟩ "c" "x" "" (by rfl)

end CloudFS
